import Mathlib

/-!
Shallow embedding of `src/python_scripts/process_data.py` (vital-signs
rate-estimation pipeline) over exact rational arithmetic, together with
theorems settling the frozen claims about it.

Conventions of the embedding:
* Python floats are idealised as `ℚ`; numpy complex FFT samples are pairs
  `(re, im) : ℚ × ℚ`.
* Library kernels that compute transcendental values (scipy's Butterworth
  filter, `np.fft.fft`, the Hamming window) are uninterpreted parameters collected
  in `NumericsLib`; everything the repository itself computes is translated
  definitionally from the source.
* Timestamps are modelled after parsing: `Option ℚ` (seconds), `none`
  standing for an unparseable ISO string, so the `try/except` of
  `calculate_actual_sampling_rate` becomes an `Except` computation.
-/

namespace ProcessData

/-- Python `int()` applied to a rational: truncation toward zero. -/
def pyTrunc (q : ℚ) : ℤ := if 0 ≤ q then ⌊q⌋ else ⌈q⌉

/-- Normalisation of one bound of a Python slice `l[a:b]`: negative indices
count from the end, and bounds are clamped to the list length. -/
def pySliceBound (len : ℕ) (i : ℤ) : ℕ :=
  if i < 0 then (i + len).toNat else min i.toNat len

/-- Python slicing `l[a:b]` on a list. -/
def pySlice {α : Type} (l : List α) (a b : ℤ) : List α :=
  (l.drop (pySliceBound l.length a)).take
    (pySliceBound l.length b - pySliceBound l.length a)

/-- Squared magnitude of a complex FFT sample, `np.abs(z) ** 2`. -/
def sqMag (z : ℚ × ℚ) : ℚ := z.1 ^ 2 + z.2 ^ 2

/-- `np.max` of a nonempty list (junk value `0` on `[]`, a case the source
never reaches because it returns early on an empty spectrum). -/
def listMax : List ℚ → ℚ
  | [] => 0
  | x :: xs => xs.foldl max x

/-- Indexing `ps[i]` for indices the source only uses in range; out-of-range
reads default to `0`. -/
def psGet (ps : List ℚ) (i : ℕ) : ℚ := ps.getD i 0

/-- `np.argmax`: index of the first occurrence of the maximum value. -/
def argmaxIdx (ps : List ℚ) : ℕ := ps.indexOf (listMax ps)

/-- `np.mean` of a list (junk value `0` on `[]`). -/
def listMean (l : List ℚ) : ℚ := l.sum / (l.length : ℚ)

/-- `remove_dc` (process_data.py, lines 150-152): subtract the arithmetic
mean of the whole sequence from every sample. -/
def remove_dc (l : List ℚ) : List ℚ := l.map (fun x => x - listMean l)

/-- One `{value}` record of a reference rate series. -/
structure RatePoint where
  value : ℚ
  deriving DecidableEq

/-- The optional `data['rates']` object: reference heart and respiratory
rate series. -/
structure RateSeries where
  heart : List RatePoint
  respiratory : List RatePoint
  deriving DecidableEq

/-- A loaded recording, after JSON parsing. `startTime`/`endTime` are the
parsed ISO timestamps in seconds (`none` = unparseable string);
`samplingRate` is `metadata.samplingRate` when the key is present;
`rates` is `data['rates']` when the key is present. -/
structure VitalData where
  startTime : Option ℚ
  endTime : Option ℚ
  samplingRate : Option ℚ
  bvpRaw : List ℚ
  respRaw : List ℚ
  rates : Option RateSeries
  deriving DecidableEq

/-- The body of the `try:` block of `calculate_actual_sampling_rate`
(process_data.py, lines 19-41): parse both timestamps (a parse failure
raises, modelled as `.error`), compute `duration = end - start`, divide the
sample count by it when positive, otherwise take the declared rate
(default 30), and floor the result at 10 Hz. -/
def samplingRateTryBlock (d : VitalData) : Except String ℚ :=
  match d.startTime, d.endTime with
  | some s, some e =>
    let duration := e - s
    let num_samples := d.bvpRaw.length
    let actual_fs :=
      if 0 < duration then (num_samples : ℚ) / duration
      else d.samplingRate.getD 30
    .ok (max actual_fs 10)
  | _, _ => .error "timestamp parse error"

/-- `calculate_actual_sampling_rate` (process_data.py, lines 17-45): the
`try:` body, with the `except:` handler returning
`data['metadata'].get('samplingRate', 30)`. -/
def calculate_actual_sampling_rate (d : VitalData) : ℚ :=
  match samplingRateTryBlock d with
  | .ok v => v
  | .error _ => d.samplingRate.getD 30

/-- Frequency resolution `fs / n` of `find_dominant_frequency`
(process_data.py, line 61). -/
def freqResolution (fftResult : List (ℚ × ℚ)) (fs : ℚ) : ℚ :=
  fs / (fftResult.length : ℚ)

/-- `min_idx = max(1, int(min_freq / freq_resolution))` (line 64). -/
def minIdxOf (fftResult : List (ℚ × ℚ)) (fs minFreq : ℚ) : ℤ :=
  max 1 (pyTrunc (minFreq / freqResolution fftResult fs))

/-- `max_idx = min(int(max_freq / freq_resolution), n // 2)` (line 65). -/
def maxIdxOf (fftResult : List (ℚ × ℚ)) (fs maxFreq : ℚ) : ℤ :=
  min (pyTrunc (maxFreq / freqResolution fftResult fs))
    ((fftResult.length / 2 : ℕ) : ℤ)

/-- `power_spectrum = np.abs(fft_result[min_idx:max_idx]) ** 2` (line 68). -/
def powerSpectrumOf (fftResult : List (ℚ × ℚ)) (fs minFreq maxFreq : ℚ) :
    List ℚ :=
  (pySlice fftResult (minIdxOf fftResult fs minFreq)
    (maxIdxOf fftResult fs maxFreq)).map sqMag

/-- One candidate spectral peak of `find_dominant_frequency`
(lines 86-90): its global bin `idx = i + min_idx`, its frequency
`frequencies[i] = (min_idx + i) * freq_resolution`, and its power. -/
structure Peak where
  idx : ℤ
  freq : ℚ
  power : ℚ
  deriving DecidableEq

/-- The peak-collection loop of `find_dominant_frequency` (lines 79-90):
a strictly interior sample that strictly exceeds both neighbours and the
threshold `0.2 * max(power_spectrum)` becomes a candidate peak. -/
def findPeaks (ps : List ℚ) (minIdx : ℤ) (res : ℚ) : List Peak :=
  (List.range (ps.length - 1)).filterMap fun i =>
    if 1 ≤ i ∧ psGet ps (i - 1) < psGet ps i ∧ psGet ps (i + 1) < psGet ps i
        ∧ 1 / 5 * listMax ps < psGet ps i
    then some ⟨(i : ℤ) + minIdx, ((minIdx : ℚ) + (i : ℚ)) * res, psGet ps i⟩
    else none

/-- Stable insertion of a peak into a list sorted by descending power:
the peak goes after every already-placed peak of power at least its own. -/
def insertPeakDesc (p : Peak) : List Peak → List Peak
  | [] => [p]
  | q :: qs => if q.power < p.power then p :: q :: qs else q :: insertPeakDesc p qs

/-- `peaks.sort(key=power, reverse=True)` (line 93): Python's sort is
stable, and the stable descending order is unique, so this left-to-right
stable insertion sort is extensionally the same function. -/
def sortPeaksDesc (l : List Peak) : List Peak :=
  l.foldl (fun acc p => insertPeakDesc p acc) []

/-- All candidate peaks of a spectrum search, sorted by descending power
(the list `peaks` of `find_dominant_frequency` after line 93). -/
def spectrumPeaks (fftResult : List (ℚ × ℚ)) (fs minFreq maxFreq : ℚ) :
    List Peak :=
  sortPeaksDesc (findPeaks (powerSpectrumOf fftResult fs minFreq maxFreq)
    (minIdxOf fftResult fs minFreq) (freqResolution fftResult fs))

/-- The harmonic-correction loop of `find_dominant_frequency`
(lines 103-114): scan the non-dominant peaks in order; on the first peak
whose frequency divides the dominant one by a factor in (1.9, 2.1) and
whose power exceeds 0.3 of the dominant power, return that peak's
frequency. -/
def harmonicScan (dominant : Peak) : List Peak → ℚ
  | [] => dominant.freq
  | p :: rest =>
    if 19 / 10 < dominant.freq / p.freq ∧ dominant.freq / p.freq < 21 / 10
        ∧ 3 / 10 * dominant.power < p.power
    then p.freq
    else harmonicScan dominant rest

/-- The Boolean form of the harmonic condition of lines 107-110, used to
state which peak the scan stops at. -/
def isHarmonicFundamental (dominant p : Peak) : Bool :=
  decide (19 / 10 < dominant.freq / p.freq ∧ dominant.freq / p.freq < 21 / 10
    ∧ 3 / 10 * dominant.power < p.power)

/-- `find_dominant_frequency` (process_data.py, lines 57-117). -/
def find_dominant_frequency (fftResult : List (ℚ × ℚ))
    (fs minFreq maxFreq : ℚ) : ℚ :=
  let res := freqResolution fftResult fs
  let minIdx := minIdxOf fftResult fs minFreq
  let ps := powerSpectrumOf fftResult fs minFreq maxFreq
  if ps.length = 0 then 0
  else
    match spectrumPeaks fftResult fs minFreq maxFreq with
    | [] => (((argmaxIdx ps : ℤ) + minIdx : ℤ) : ℚ) * res
    | dominant :: rest => harmonicScan dominant rest

/-- The uninterpreted third-party numeric kernels the script calls: `np.fft.fft`,
`signal.windows.hamming`, and the order-4 Butterworth design plus
`filtfilt` of `apply_butterworth_bandpass` (lines 48-54), the latter taking
the sampling rate and the two cutoffs. Their outputs are transcendental, so
the embedding quantifies over them instead of fixing them. -/
structure NumericsLib where
  fft : List ℚ → List (ℚ × ℚ)
  hamming : ℕ → List ℚ
  butterBandpassFiltfilt : ℚ → ℚ → ℚ → List ℚ → List ℚ

/-- `signal.windows.hamming(len(signal_data)) * signal_data`
(lines 123 and 138). -/
def windowed (lib : NumericsLib) (x : List ℚ) : List ℚ :=
  List.zipWith (· * ·) (lib.hamming x.length) x

/-- `calculate_heart_rate` (lines 120-132): window, FFT, dominant frequency
in the 0.6-3.3 Hz band, times 60. -/
def calculate_heart_rate (lib : NumericsLib) (x : List ℚ) (fs : ℚ) : ℚ :=
  find_dominant_frequency (lib.fft (windowed lib x)) fs (3 / 5) (33 / 10) * 60

/-- `calculate_respiratory_rate` (lines 135-147): window, FFT, dominant
frequency in the 0.1-0.54 Hz band, times 60. -/
def calculate_respiratory_rate (lib : NumericsLib) (x : List ℚ) (fs : ℚ) : ℚ :=
  find_dominant_frequency (lib.fft (windowed lib x)) fs (1 / 10) (27 / 50) * 60

/-- Ascending insertion used by the median. -/
def insertAsc (x : ℚ) : List ℚ → List ℚ
  | [] => [x]
  | y :: ys => if x < y then x :: y :: ys else y :: insertAsc x ys

/-- Ascending sort used by the median. -/
def sortAsc : List ℚ → List ℚ
  | [] => []
  | x :: xs => insertAsc x (sortAsc xs)

/-- `np.median`: middle element of the sorted values for odd length, the
mean of the two middle elements for even length (junk value `0` on `[]`,
where numpy yields NaN). -/
def npMedian (l : List ℚ) : ℚ :=
  let s := sortAsc l
  if l.length = 0 then 0
  else if l.length % 2 = 1 then psGet s (l.length / 2)
  else (psGet s (l.length / 2 - 1) + psGet s (l.length / 2)) / 2

/-- The sampling-rate resolution of `main` (process_data.py, line 284):
`sampling_rate_override if sampling_rate_override else actual`; the
override comes from argparse as `Option ℤ` and Python truthiness ignores
both `None` and `0`. -/
def resolveSamplingRate (override : Option ℤ) (actual : ℚ) : ℚ :=
  match override with
  | none => actual
  | some v => if v = 0 then actual else (v : ℚ)

/-- `main` (process_data.py, lines 276-336), restricted to its dataflow:
resolve the sampling rate, remove DC, bandpass-filter, estimate the two
rates, then read `data['rates']['heart']` and `data['rates']['respiratory']`
unconditionally (a `KeyError`, modelled as `.error`, when the `rates` key
is absent) and take their medians. Plots and prints carry no data and are
dropped. The `.ok` value is the quadruple the script computes and reports:
(hr, rr, median recorded hr, median recorded rr). -/
def main (lib : NumericsLib) (d : VitalData)
    (sampling_rate_override : Option ℤ) : Except String (ℚ × ℚ × ℚ × ℚ) :=
  let actual_sampling_rate := calculate_actual_sampling_rate d
  let sampling_rate := resolveSamplingRate sampling_rate_override actual_sampling_rate
  let bvp_filtered :=
    lib.butterBandpassFiltfilt sampling_rate (3 / 5) (33 / 10) (remove_dc d.bvpRaw)
  let resp_filtered :=
    lib.butterBandpassFiltfilt sampling_rate (1 / 10) (27 / 50) (remove_dc d.respRaw)
  let hr := calculate_heart_rate lib bvp_filtered sampling_rate
  let rr := calculate_respiratory_rate lib resp_filtered sampling_rate
  match d.rates with
  | none => .error "KeyError: rates"
  | some r =>
    .ok (hr, rr, npMedian (r.heart.map RatePoint.value),
      npMedian (r.respiratory.map RatePoint.value))

/-- The two per-minute rate estimates of a `main` outcome, when it
completed. -/
def estimatesOf (r : Except String (ℚ × ℚ × ℚ × ℚ)) : Option (ℚ × ℚ) :=
  match r with
  | .ok (hr, rr, _, _) => some (hr, rr)
  | .error _ => none

theorem sum_map_sub_const (l : List ℚ) (c : ℚ) :
    (l.map (fun x => x - c)).sum = l.sum - l.length * c := by
  induction l with
  | nil => simp
  | cons x xs ih =>
    simp only [List.map_cons, List.sum_cons, ih, List.length_cons]
    push_cast
    ring

theorem listMean_remove_dc (l : List ℚ) : listMean (remove_dc l) = 0 := by
  rcases eq_or_ne l [] with h | h
  · subst h; simp [remove_dc, listMean]
  · have hn : (l.length : ℚ) ≠ 0 := by
      exact_mod_cast fun h0 => h (List.length_eq_zero.mp (by exact_mod_cast h0))
    unfold remove_dc listMean
    rw [sum_map_sub_const, List.length_map]
    have hc : (l.length : ℚ) * (l.sum / l.length) = l.sum := by
      field_simp
    rw [hc, sub_self, zero_div]

/-- C9: DC removal is idempotent: over exact rational arithmetic, applying
`remove_dc` twice yields the same sequence as applying it once. -/
theorem remove_dc_idempotent (l : List ℚ) :
    remove_dc (remove_dc l) = remove_dc l := by
  conv_lhs => rw [remove_dc]
  simp [listMean_remove_dc]

/-- C10: in the Orchestrator's sampling-rate resolution, a `None` or `0`
override is ignored in favour of the computed rate, and any nonzero
override is used verbatim (in particular values below the 10 Hz floor). -/
theorem resolve_override_spec (v : ℤ) (a : ℚ) (hv : v ≠ 0) :
    resolveSamplingRate none a = a ∧ resolveSamplingRate (some 0) a = a ∧
      resolveSamplingRate (some v) a = (v : ℚ) :=
  ⟨rfl, by simp [resolveSamplingRate], by simp [resolveSamplingRate, hv]⟩

/-- Witness for C10 at override 3 Hz (below the floor) and computed rate
50 Hz. -/
theorem resolve_override_spec_witness :
    (3 : ℤ) ≠ 0 ∧
      (resolveSamplingRate none 50 = 50 ∧ resolveSamplingRate (some 0) 50 = 50 ∧
        resolveSamplingRate (some 3) 50 = ((3 : ℤ) : ℚ)) :=
  ⟨by decide, resolve_override_spec 3 50 (by decide)⟩

/-- C7: an unparseable start or end timestamp makes the `try:` body fail;
the failure is caught and the declared metadata rate (default 30) is
returned, never an error. -/
theorem parse_failure_fallback (d : VitalData)
    (h : d.startTime = none ∨ d.endTime = none) :
    (∃ msg, samplingRateTryBlock d = Except.error msg) ∧
      calculate_actual_sampling_rate d = d.samplingRate.getD 30 ∧
      (d.samplingRate = none → calculate_actual_sampling_rate d = 30) := by
  have herr : samplingRateTryBlock d = Except.error "timestamp parse error" := by
    unfold samplingRateTryBlock
    rcases hs : d.startTime with _ | s <;> rcases he : d.endTime with _ | e <;>
      first
      | rfl
      | (exfalso; rcases h with h | h <;> simp_all)
  refine ⟨⟨_, herr⟩, ?_, ?_⟩
  · unfold calculate_actual_sampling_rate
    rw [herr]
  · intro hnone
    unfold calculate_actual_sampling_rate
    rw [herr, hnone]
    rfl

/-- Concrete recording with an unparseable start timestamp and declared
rate 5 Hz. -/
def recUnparseable : VitalData := ⟨none, some 0, some 5, [], [], none⟩

/-- Witness for C7 at `recUnparseable`. -/
theorem parse_failure_fallback_witness :
    (recUnparseable.startTime = none ∨ recUnparseable.endTime = none) ∧
      ((∃ msg, samplingRateTryBlock recUnparseable = Except.error msg) ∧
        calculate_actual_sampling_rate recUnparseable =
          recUnparseable.samplingRate.getD 30 ∧
        (recUnparseable.samplingRate = none →
          calculate_actual_sampling_rate recUnparseable = 30)) :=
  ⟨Or.inl rfl, parse_failure_fallback recUnparseable (Or.inl rfl)⟩

/-- Concrete recording with parseable timestamps, zero duration, and a
declared rate of 5 Hz. -/
def recZeroDuration : VitalData := ⟨some 0, some 0, some 5, [], [], none⟩

/-- C1 counterexample: with parseable timestamps, non-positive duration and
declared rate 5 Hz, the estimator returns 10 Hz — the floor IS applied to
the declared fallback — whereas the claim says the declared 5 Hz comes back
unfloored. -/
theorem floor_applied_to_declared_counterexample :
    calculate_actual_sampling_rate recZeroDuration = 10 ∧ (10 : ℚ) ≠ 5 := by
  constructor
  · norm_num [calculate_actual_sampling_rate, samplingRateTryBlock,
      recZeroDuration, max_def]
  · norm_num

/-- C1 amended: for parseable timestamps, a positive duration yields
`sample_count / duration` floored at 10 Hz, and a non-positive duration
yields the declared rate (default 30) with the same 10 Hz floor applied. -/
theorem sampling_rate_parseable_spec (d : VitalData) (s e : ℚ)
    (hs : d.startTime = some s) (he : d.endTime = some e) :
    (0 < e - s →
      calculate_actual_sampling_rate d =
        max ((d.bvpRaw.length : ℚ) / (e - s)) 10) ∧
    (e - s ≤ 0 →
      calculate_actual_sampling_rate d = max (d.samplingRate.getD 30) 10) := by
  have hok : samplingRateTryBlock d =
      Except.ok (max (if 0 < e - s then (d.bvpRaw.length : ℚ) / (e - s)
        else d.samplingRate.getD 30) 10) := by
    unfold samplingRateTryBlock
    rw [hs, he]
  constructor
  · intro hpos
    unfold calculate_actual_sampling_rate
    rw [hok]
    simp [hpos]
  · intro hneg
    unfold calculate_actual_sampling_rate
    rw [hok]
    simp [not_lt.2 hneg]

/-- Concrete recording: 300 samples between t=0s and t=10s. -/
def recTenSeconds : VitalData :=
  ⟨some 0, some 10, none, List.replicate 300 0, [], none⟩

/-- Witness for C1 (amended) at `recTenSeconds`: 300 samples over 10 s give
exactly 30 Hz. -/
theorem sampling_rate_parseable_spec_witness :
    recTenSeconds.startTime = some 0 ∧ recTenSeconds.endTime = some 10 ∧
      ((0 < (10 : ℚ) - 0 →
        calculate_actual_sampling_rate recTenSeconds =
          max ((recTenSeconds.bvpRaw.length : ℚ) / ((10 : ℚ) - 0)) 10) ∧
       ((10 : ℚ) - 0 ≤ 0 →
        calculate_actual_sampling_rate recTenSeconds =
          max (recTenSeconds.samplingRate.getD 30) 10)) ∧
      calculate_actual_sampling_rate recTenSeconds = 30 := by
  refine ⟨rfl, rfl, sampling_rate_parseable_spec recTenSeconds 0 10 rfl rfl, ?_⟩
  norm_num [recTenSeconds, calculate_actual_sampling_rate,
    samplingRateTryBlock, max_def]

/-- Concrete recording whose timestamps both fail to parse, with declared
rate 5 Hz. -/
def recBothBad : VitalData := ⟨none, none, some 5, [], [], none⟩

/-- C6 counterexample: on a recording with unparseable timestamps and a
declared rate of 5 Hz, the estimator returns 5 Hz, below the claimed
universal 10 Hz floor. -/
theorem rate_floor_counterexample :
    calculate_actual_sampling_rate recBothBad = 5 ∧
      calculate_actual_sampling_rate recBothBad < 10 := by
  have h5 : calculate_actual_sampling_rate recBothBad = 5 := rfl
  exact ⟨h5, by rw [h5]; norm_num⟩

/-- C6 amended: the 10 Hz floor is guaranteed whenever both timestamps
parse (both branches of the `try:` body go through `max(·, 10)`); only the
exception path can return less. -/
theorem rate_floor_when_parseable (d : VitalData) (s e : ℚ)
    (hs : d.startTime = some s) (he : d.endTime = some e) :
    10 ≤ calculate_actual_sampling_rate d := by
  unfold calculate_actual_sampling_rate samplingRateTryBlock
  rw [hs, he]
  exact le_max_right _ 10

/-- Concrete recording: 6 samples over 2 s (computed rate 3 Hz, floored). -/
def recSlowRate : VitalData :=
  ⟨some 0, some 2, some 4, List.replicate 6 0, [], none⟩

/-- Witness for C6 (amended) at `recSlowRate`. -/
theorem rate_floor_when_parseable_witness :
    recSlowRate.startTime = some 0 ∧ recSlowRate.endTime = some 2 ∧
      10 ≤ calculate_actual_sampling_rate recSlowRate :=
  ⟨rfl, rfl, rate_floor_when_parseable recSlowRate 0 2 rfl rfl⟩

/-- A concrete instantiation of the uninterpreted numeric kernels. -/
def libTrivial : NumericsLib :=
  ⟨fun _ => [], fun n => List.replicate n 1, fun _ _ _ x => x⟩

/-- Concrete recording without the `rates` key. -/
def recNoRates : VitalData :=
  ⟨some 0, some 10, some 30, [1, 2, 3], [4, 5, 6], none⟩

/-- C8 counterexample: on a recording that supplies no reference rate
series, `main` does not complete: it stops with a `KeyError` on
`data['rates']`. -/
theorem main_requires_rates_counterexample :
    main libTrivial recNoRates none = Except.error "KeyError: rates" := rfl

/-- C8 amended: `main` completes iff the `rates` key is present — without
it the unconditional reads of `data['rates']` raise a KeyError — and the
reference series never influence the two rate estimates, which are the
same whatever series is supplied. -/
theorem main_rates_optional_only_for_comparison (lib : NumericsLib)
    (d : VitalData) (o : Option ℤ) :
    (d.rates = none → main lib d o = Except.error "KeyError: rates") ∧
    (∀ r : RateSeries, ∃ v, main lib { d with rates := some r } o = Except.ok v) ∧
    (∀ r r' : RateSeries,
      estimatesOf (main lib { d with rates := some r } o) =
        estimatesOf (main lib { d with rates := some r' } o)) := by
  refine ⟨?_, ?_, ?_⟩
  · intro h
    unfold main
    rw [h]
  · intro r
    exact ⟨_, rfl⟩
  · intro r r'
    rfl

/-- Witness for C8 (amended) at the trivial kernels and `recNoRates`. -/
theorem main_rates_optional_witness :
    (recNoRates.rates = none →
      main libTrivial recNoRates none = Except.error "KeyError: rates") ∧
    (∀ r : RateSeries,
      ∃ v, main libTrivial { recNoRates with rates := some r } none = Except.ok v) ∧
    (∀ r r' : RateSeries,
      estimatesOf (main libTrivial { recNoRates with rates := some r } none) =
        estimatesOf (main libTrivial { recNoRates with rates := some r' } none)) :=
  main_rates_optional_only_for_comparison libTrivial recNoRates none

theorem pyTrunc_eq_floor {q : ℚ} (h : 0 ≤ q) : pyTrunc q = ⌊q⌋ := if_pos h

theorem pySliceBound_of_nonneg {len : ℕ} {i : ℤ} (h : 0 ≤ i) :
    pySliceBound len i = min i.toNat len := by
  unfold pySliceBound
  rw [if_neg (not_lt.mpr h)]

theorem pySlice_eq_drop_take {α : Type} (l : List α) (a b : ℤ)
    (ha : 0 ≤ a) (hb : 0 ≤ b) :
    pySlice l a b = (l.drop a.toNat).take (b.toNat - a.toNat) := by
  unfold pySlice
  rw [pySliceBound_of_nonneg ha, pySliceBound_of_nonneg hb]
  have hdrop : l.drop (min a.toNat l.length) = l.drop a.toNat := by
    rcases le_total a.toNat l.length with h | h
    · rw [min_eq_left h]
    · rw [min_eq_right h, List.drop_eq_nil_of_le le_rfl,
        List.drop_eq_nil_of_le h]
  rw [hdrop, List.take_eq_take, List.length_drop]
  omega

theorem minIdxOf_pos (fftResult : List (ℚ × ℚ)) (fs minFreq : ℚ) :
    1 ≤ minIdxOf fftResult fs minFreq := le_max_left 1 _

theorem maxIdxOf_nonneg (fftResult : List (ℚ × ℚ)) (fs maxFreq : ℚ)
    (h : 0 ≤ maxFreq / freqResolution fftResult fs) :
    0 ≤ maxIdxOf fftResult fs maxFreq := by
  unfold maxIdxOf
  refine le_min ?_ (Int.natCast_nonneg _)
  rw [pyTrunc_eq_floor h]
  exact Int.floor_nonneg.mpr h

/-- C5: the search band maps to `min_idx = max(1, floor(min/resolution))`
and `max_idx = min(floor(max/resolution), N/2)` with `resolution = fs/N`,
so the DC bin is always excluded; the power spectrum is the squared
magnitudes over `[min_idx, max_idx)`; and an empty range yields the normal
return value 0. -/
theorem index_mapping_spec (fftResult : List (ℚ × ℚ)) (fs minFreq maxFreq : ℚ)
    (hn : 0 < fftResult.length) (hfs : 0 < fs)
    (hmin : 0 ≤ minFreq) (hmax : 0 ≤ maxFreq) :
    minIdxOf fftResult fs minFreq =
      max 1 ⌊minFreq / (fs / (fftResult.length : ℚ))⌋ ∧
    maxIdxOf fftResult fs maxFreq =
      min ⌊maxFreq / (fs / (fftResult.length : ℚ))⌋
        ((fftResult.length / 2 : ℕ) : ℤ) ∧
    1 ≤ minIdxOf fftResult fs minFreq ∧
    powerSpectrumOf fftResult fs minFreq maxFreq =
      ((fftResult.drop (minIdxOf fftResult fs minFreq).toNat).take
        ((maxIdxOf fftResult fs maxFreq).toNat -
          (minIdxOf fftResult fs minFreq).toNat)).map sqMag ∧
    (powerSpectrumOf fftResult fs minFreq maxFreq = [] →
      find_dominant_frequency fftResult fs minFreq maxFreq = 0) := by
  have hres : 0 < freqResolution fftResult fs := by
    unfold freqResolution
    exact div_pos hfs (by exact_mod_cast hn)
  have hq1 : 0 ≤ minFreq / freqResolution fftResult fs :=
    div_nonneg hmin hres.le
  have hq2 : 0 ≤ maxFreq / freqResolution fftResult fs :=
    div_nonneg hmax hres.le
  refine ⟨?_, ?_, minIdxOf_pos fftResult fs minFreq, ?_, ?_⟩
  · unfold minIdxOf
    rw [pyTrunc_eq_floor hq1]
    rfl
  · unfold maxIdxOf
    rw [pyTrunc_eq_floor hq2]
    rfl
  · unfold powerSpectrumOf
    rw [pySlice_eq_drop_take _ _ _
      (le_trans zero_le_one (minIdxOf_pos fftResult fs minFreq))
      (maxIdxOf_nonneg fftResult fs maxFreq hq2)]
  · intro h
    simp [find_dominant_frequency, h]

/-- Concrete all-ones FFT input of length 8. -/
def fftOnes : List (ℚ × ℚ) := List.replicate 8 ((1 : ℚ), 0)

/-- Witness for C5 at `fftOnes`, fs = 8 Hz, band (1/2, 7/2). -/
theorem index_mapping_spec_witness :
    0 < fftOnes.length ∧ 0 < (8 : ℚ) ∧ 0 ≤ (1 / 2 : ℚ) ∧ 0 ≤ (7 / 2 : ℚ) ∧
      (minIdxOf fftOnes 8 (1 / 2) =
        max 1 ⌊(1 / 2 : ℚ) / (8 / (fftOnes.length : ℚ))⌋ ∧
      maxIdxOf fftOnes 8 (7 / 2) =
        min ⌊(7 / 2 : ℚ) / (8 / (fftOnes.length : ℚ))⌋
          ((fftOnes.length / 2 : ℕ) : ℤ) ∧
      1 ≤ minIdxOf fftOnes 8 (1 / 2) ∧
      powerSpectrumOf fftOnes 8 (1 / 2) (7 / 2) =
        ((fftOnes.drop (minIdxOf fftOnes 8 (1 / 2)).toNat).take
          ((maxIdxOf fftOnes 8 (7 / 2)).toNat -
            (minIdxOf fftOnes 8 (1 / 2)).toNat)).map sqMag ∧
      (powerSpectrumOf fftOnes 8 (1 / 2) (7 / 2) = [] →
        find_dominant_frequency fftOnes 8 (1 / 2) (7 / 2) = 0)) := by
  refine ⟨by simp [fftOnes], by norm_num, by norm_num, by norm_num, ?_⟩
  exact index_mapping_spec fftOnes 8 (1 / 2) (7 / 2) (by simp [fftOnes])
    (by norm_num) (by norm_num) (by norm_num)

theorem psGet_eq_zero {ps : List ℚ} (h : ∀ x ∈ ps, x = 0) (j : ℕ) :
    psGet ps j = 0 := by
  unfold psGet
  rw [List.getD_eq_getElem?_getD]
  rcases hj : ps[j]? with _ | x
  · rfl
  · exact h x (List.getElem?_mem hj)

theorem findPeaks_of_zero (ps : List ℚ) (mi : ℤ) (res : ℚ)
    (h : ∀ x ∈ ps, x = 0) : findPeaks ps mi res = [] := by
  unfold findPeaks
  rw [List.filterMap_eq_nil_iff]
  intro i _
  rw [if_neg]
  rintro ⟨-, hlt, -, -⟩
  rw [psGet_eq_zero h, psGet_eq_zero h] at hlt
  exact lt_irrefl 0 hlt

theorem le_foldl_max (l : List ℚ) (a : ℚ) : a ≤ l.foldl max a := by
  induction l generalizing a with
  | nil => exact le_rfl
  | cons x xs ih => exact le_trans (le_max_left a x) (ih (max a x))

theorem mem_le_foldl_max (l : List ℚ) (a : ℚ) : ∀ x ∈ l, x ≤ l.foldl max a := by
  induction l generalizing a with
  | nil => simp
  | cons y ys ih =>
    intro x hx
    rcases List.mem_cons.mp hx with rfl | hx
    · exact le_trans (le_max_right a x) (le_foldl_max ys _)
    · exact ih (max a y) x hx

theorem foldl_max_mem (l : List ℚ) (a : ℚ) :
    l.foldl max a = a ∨ l.foldl max a ∈ l := by
  induction l generalizing a with
  | nil => exact Or.inl rfl
  | cons x xs ih =>
    rcases ih (max a x) with h | h
    · rcases max_choice a x with hm | hm
      · exact Or.inl (by rw [List.foldl_cons, h, hm])
      · refine Or.inr ?_
        rw [List.foldl_cons, h, hm]
        exact List.mem_cons_self x xs
    · exact Or.inr (List.mem_cons_of_mem x (by rw [List.foldl_cons]; exact h))

theorem listMax_mem {l : List ℚ} (h : l ≠ []) : listMax l ∈ l := by
  cases l with
  | nil => exact absurd rfl h
  | cons x xs =>
    simp only [listMax]
    rcases foldl_max_mem xs x with h1 | h1
    · rw [h1]; exact List.mem_cons_self x xs
    · exact List.mem_cons_of_mem x h1

theorem le_listMax {l : List ℚ} {x : ℚ} (hx : x ∈ l) : x ≤ listMax l := by
  cases l with
  | nil => simp at hx
  | cons y ys =>
    simp only [listMax]
    rcases List.mem_cons.mp hx with rfl | hx
    · exact le_foldl_max ys x
    · exact mem_le_foldl_max ys y x hx

theorem argmaxIdx_lt_length {l : List ℚ} (h : l ≠ []) :
    argmaxIdx l < l.length :=
  List.indexOf_lt_length.mpr (listMax_mem h)

theorem psGet_argmaxIdx {l : List ℚ} (h : l ≠ []) :
    psGet l (argmaxIdx l) = listMax l := by
  unfold psGet argmaxIdx
  rw [List.getD_eq_getElem?_getD,
    List.getElem?_eq_getElem (List.indexOf_lt_length.mpr (listMax_mem h))]
  simp [List.getElem_indexOf]

theorem fdf_no_peaks (fftResult : List (ℚ × ℚ)) (fs minFreq maxFreq : ℚ)
    (hne : powerSpectrumOf fftResult fs minFreq maxFreq ≠ [])
    (hp : spectrumPeaks fftResult fs minFreq maxFreq = []) :
    find_dominant_frequency fftResult fs minFreq maxFreq =
      (((argmaxIdx (powerSpectrumOf fftResult fs minFreq maxFreq) : ℤ) +
        minIdxOf fftResult fs minFreq : ℤ) : ℚ) *
        freqResolution fftResult fs := by
  simp only [find_dominant_frequency]
  rw [if_neg (by simpa [List.length_eq_zero] using hne), hp]

theorem fdf_with_peaks (fftResult : List (ℚ × ℚ)) (fs minFreq maxFreq : ℚ)
    (dominant : Peak) (rest : List Peak)
    (hne : powerSpectrumOf fftResult fs minFreq maxFreq ≠ [])
    (hp : spectrumPeaks fftResult fs minFreq maxFreq = dominant :: rest) :
    find_dominant_frequency fftResult fs minFreq maxFreq =
      harmonicScan dominant rest := by
  simp only [find_dominant_frequency]
  rw [if_neg (by simpa [List.length_eq_zero] using hne), hp]

/-- C4 counterexample: the all-zero FFT of a flat (zero-variance) signal,
with a search band whose power spectrum is nonempty, yields
`min_idx * resolution = 1`, not the claimed 0. -/
theorem flat_band_counterexample :
    find_dominant_frequency (List.replicate 8 ((0 : ℚ), (0 : ℚ)))
        8 (1 / 2) (7 / 2) = 1 ∧
      powerSpectrumOf (List.replicate 8 ((0 : ℚ), (0 : ℚ)))
        8 (1 / 2) (7 / 2) ≠ [] ∧
      (1 : ℚ) ≠ 0 := by
  refine ⟨?_, ?_, by norm_num⟩
  · norm_num [find_dominant_frequency, powerSpectrumOf, minIdxOf, maxIdxOf,
      freqResolution, pyTrunc, pySlice, pySliceBound, sqMag, spectrumPeaks,
      findPeaks, sortPeaksDesc, insertPeakDesc, psGet, listMax, argmaxIdx,
      harmonicScan, max_def, min_def, List.replicate, List.range,
      List.range.loop, List.indexOf, List.findIdx, List.findIdx.go,
      Int.toNat, List.take, List.foldl, List.drop]
  · have hps : powerSpectrumOf (List.replicate 8 ((0 : ℚ), (0 : ℚ)))
        8 (1 / 2) (7 / 2) = [0, 0] := by
      norm_num [powerSpectrumOf, minIdxOf, maxIdxOf, freqResolution, pyTrunc,
        pySlice, pySliceBound, sqMag, max_def, min_def, List.replicate,
        Int.toNat, List.take, List.drop]
    rw [hps]
    exact List.cons_ne_nil _ _

/-- C4 amended: an all-zero FFT band (the exact transform of a flat signal
after DC removal) produces no candidate peaks, and the fallback returns
`min_idx * frequency_resolution` — the lowest in-band frequency, a positive
value rather than 0 — without crashing (the function is total). -/
theorem flat_band_value (fftResult : List (ℚ × ℚ)) (fs minFreq maxFreq : ℚ)
    (hzero : ∀ z ∈ fftResult, z = ((0 : ℚ), (0 : ℚ)))
    (hne : powerSpectrumOf fftResult fs minFreq maxFreq ≠ []) :
    find_dominant_frequency fftResult fs minFreq maxFreq =
      ((minIdxOf fftResult fs minFreq : ℚ)) * freqResolution fftResult fs := by
  have hz : ∀ x ∈ powerSpectrumOf fftResult fs minFreq maxFreq, x = 0 := by
    intro x hx
    unfold powerSpectrumOf at hx
    rcases List.mem_map.mp hx with ⟨z, hz1, rfl⟩
    have hzf : z ∈ fftResult := by
      unfold pySlice at hz1
      exact List.mem_of_mem_drop (List.mem_of_mem_take hz1)
    rw [hzero z hzf]
    simp [sqMag]
  have hsp : spectrumPeaks fftResult fs minFreq maxFreq = [] := by
    unfold spectrumPeaks
    rw [findPeaks_of_zero _ _ _ hz]
    rfl
  have hargmax : argmaxIdx (powerSpectrumOf fftResult fs minFreq maxFreq) = 0 := by
    have hmax : listMax (powerSpectrumOf fftResult fs minFreq maxFreq) = 0 :=
      hz _ (listMax_mem hne)
    unfold argmaxIdx
    rw [hmax]
    rcases hps : powerSpectrumOf fftResult fs minFreq maxFreq with _ | ⟨y, ys⟩
    · exact absurd hps hne
    · have hy : y = 0 := hz y (hps ▸ List.mem_cons_self y ys)
      rw [← hy]
      exact List.indexOf_cons_self y ys
  rw [fdf_no_peaks fftResult fs minFreq maxFreq hne hsp, hargmax]
  push_cast
  ring

/-- Witness for C4 (amended) at the all-zero FFT of length 8. -/
theorem flat_band_value_witness :
    (∀ z ∈ List.replicate 8 ((0 : ℚ), (0 : ℚ)), z = ((0 : ℚ), (0 : ℚ))) ∧
      powerSpectrumOf (List.replicate 8 ((0 : ℚ), (0 : ℚ))) 8 (1 / 2) (7 / 2) ≠ [] ∧
      find_dominant_frequency (List.replicate 8 ((0 : ℚ), (0 : ℚ))) 8 (1 / 2) (7 / 2) =
        ((minIdxOf (List.replicate 8 ((0 : ℚ), (0 : ℚ))) 8 (1 / 2) : ℚ)) *
          freqResolution (List.replicate 8 ((0 : ℚ), (0 : ℚ))) 8 := by
  have h1 : ∀ z ∈ List.replicate 8 ((0 : ℚ), (0 : ℚ)), z = ((0 : ℚ), (0 : ℚ)) :=
    fun z hz => List.eq_of_mem_replicate hz
  have h2 : powerSpectrumOf (List.replicate 8 ((0 : ℚ), (0 : ℚ))) 8 (1 / 2) (7 / 2) ≠ [] := by
    have hps : powerSpectrumOf (List.replicate 8 ((0 : ℚ), (0 : ℚ)))
        8 (1 / 2) (7 / 2) = [0, 0] := by
      norm_num [powerSpectrumOf, minIdxOf, maxIdxOf, freqResolution, pyTrunc,
        pySlice, pySliceBound, sqMag, max_def, min_def, List.replicate,
        Int.toNat, List.take, List.drop]
    rw [hps]
    exact List.cons_ne_nil _ _
  exact ⟨h1, h2, flat_band_value _ 8 (1 / 2) (7 / 2) h1 h2⟩

theorem harmonicScan_eq_find (dominant : Peak) (l : List Peak) :
    harmonicScan dominant l =
      match l.find? (isHarmonicFundamental dominant) with
      | some p => p.freq
      | none => dominant.freq := by
  induction l with
  | nil => rfl
  | cons p rest ih =>
    by_cases h : 19 / 10 < dominant.freq / p.freq ∧
        dominant.freq / p.freq < 21 / 10 ∧ 3 / 10 * dominant.power < p.power
    · simp [harmonicScan, List.find?_cons, isHarmonicFundamental, h]
    · simp only [harmonicScan, List.find?_cons, isHarmonicFundamental]
      rw [if_neg h, decide_eq_false h]
      exact ih

/-- C2: with `dominant` the head of the power-sorted peak list, the
estimator returns the frequency of the first other peak (in descending
power order) whose frequency ratio to the dominant lies strictly in
(1.9, 2.1) with power above 0.3 of the dominant's — `List.find?` stops at
the first match, checking no further peaks — and the dominant frequency
when no peak matches. -/
theorem harmonic_correction (fftResult : List (ℚ × ℚ))
    (fs minFreq maxFreq : ℚ) (dominant : Peak) (rest : List Peak)
    (hne : powerSpectrumOf fftResult fs minFreq maxFreq ≠ [])
    (hpeaks : spectrumPeaks fftResult fs minFreq maxFreq = dominant :: rest) :
    find_dominant_frequency fftResult fs minFreq maxFreq =
      match rest.find? (isHarmonicFundamental dominant) with
      | some p => p.freq
      | none => dominant.freq := by
  rw [fdf_with_peaks fftResult fs minFreq maxFreq dominant rest hne hpeaks]
  exact harmonicScan_eq_find dominant rest

/-- Concrete FFT with in-band energy at 2 Hz (power 4) and 4 Hz (power 9):
the 4 Hz dominant peak is the second harmonic of the 2 Hz one. -/
def fftHarmonic : List (ℚ × ℚ) :=
  [(0, 0), (0, 0), (2, 0), (0, 0), (3, 0), (0, 0), (0, 0), (0, 0),
   (0, 0), (0, 0), (0, 0), (0, 0), (0, 0), (0, 0), (0, 0), (0, 0)]

/-- Witness for C2 at `fftHarmonic` (fs = 16 Hz, band (1/2, 15/2)): the
peaks sort to dominant (4 Hz, power 9) then (2 Hz, power 4), and the
correction picks 2 Hz. -/
theorem harmonic_correction_witness :
    powerSpectrumOf fftHarmonic 16 (1 / 2) (15 / 2) ≠ [] ∧
      spectrumPeaks fftHarmonic 16 (1 / 2) (15 / 2) =
        Peak.mk 4 4 9 :: [Peak.mk 2 2 4] ∧
      (find_dominant_frequency fftHarmonic 16 (1 / 2) (15 / 2) =
        match [Peak.mk 2 2 4].find? (isHarmonicFundamental (Peak.mk 4 4 9)) with
        | some p => p.freq
        | none => (Peak.mk 4 4 9).freq) := by
  have h1 : powerSpectrumOf fftHarmonic 16 (1 / 2) (15 / 2) ≠ [] := by
    have hps : powerSpectrumOf fftHarmonic 16 (1 / 2) (15 / 2) =
        [0, 4, 0, 9, 0, 0] := by
      norm_num [fftHarmonic, powerSpectrumOf, minIdxOf, maxIdxOf,
        freqResolution, pyTrunc, pySlice, pySliceBound, sqMag, max_def,
        min_def, Int.toNat, List.take, List.drop]
    rw [hps]
    exact List.cons_ne_nil _ _
  have h2 : spectrumPeaks fftHarmonic 16 (1 / 2) (15 / 2) =
      Peak.mk 4 4 9 :: [Peak.mk 2 2 4] := by
    norm_num [fftHarmonic, powerSpectrumOf, minIdxOf, maxIdxOf,
      freqResolution, pyTrunc, pySlice, pySliceBound, sqMag, spectrumPeaks,
      findPeaks, sortPeaksDesc, insertPeakDesc, psGet, listMax, max_def,
      min_def, List.range, List.range.loop, Int.toNat, List.take,
      List.foldl, List.drop, List.filterMap]
  exact ⟨h1, h2, harmonic_correction fftHarmonic 16 (1 / 2) (15 / 2)
    (Peak.mk 4 4 9) [Peak.mk 2 2 4] h1 h2⟩

theorem mem_findPeaks_iff (ps : List ℚ) (mi : ℤ) (res : ℚ) (p : Peak) :
    p ∈ findPeaks ps mi res ↔
      ∃ i : ℕ, 1 ≤ i ∧ i + 1 < ps.length ∧
        psGet ps (i - 1) < psGet ps i ∧ psGet ps (i + 1) < psGet ps i ∧
        1 / 5 * listMax ps < psGet ps i ∧
        p = ⟨(i : ℤ) + mi, ((mi : ℚ) + (i : ℚ)) * res, psGet ps i⟩ := by
  unfold findPeaks
  rw [List.mem_filterMap]
  constructor
  · rintro ⟨i, hi, hsome⟩
    rw [List.mem_range] at hi
    by_cases h : 1 ≤ i ∧ psGet ps (i - 1) < psGet ps i ∧
        psGet ps (i + 1) < psGet ps i ∧ 1 / 5 * listMax ps < psGet ps i
    · rw [if_pos h] at hsome
      obtain ⟨h1, h2, h3, h4⟩ := h
      exact ⟨i, h1, by omega, h2, h3, h4, (Option.some.inj hsome).symm⟩
    · rw [if_neg h] at hsome
      cases hsome
  · rintro ⟨i, h1, h2, h3, h4, h5, rfl⟩
    exact ⟨i, List.mem_range.mpr (by omega), if_pos ⟨h1, h3, h4, h5⟩⟩

theorem insertPeakDesc_perm (p : Peak) (l : List Peak) :
    (insertPeakDesc p l).Perm (p :: l) := by
  induction l with
  | nil => exact List.Perm.refl _
  | cons q qs ih =>
    simp only [insertPeakDesc]
    split
    · exact List.Perm.refl _
    · exact (ih.cons q).trans (List.Perm.swap p q qs)

theorem foldl_insert_perm (l acc : List Peak) :
    (l.foldl (fun a p => insertPeakDesc p a) acc).Perm (acc ++ l) := by
  induction l generalizing acc with
  | nil => simp
  | cons p ps ih =>
    have h1 := ih (insertPeakDesc p acc)
    have h2 := (insertPeakDesc_perm p acc).append_right ps
    exact (h1.trans h2).trans List.perm_middle.symm

theorem sortPeaksDesc_perm (l : List Peak) : (sortPeaksDesc l).Perm l := by
  simpa [sortPeaksDesc] using foldl_insert_perm l []

theorem insertPeakDesc_pairwise {p : Peak} {l : List Peak}
    (h : l.Pairwise (fun a b => b.power ≤ a.power)) :
    (insertPeakDesc p l).Pairwise (fun a b => b.power ≤ a.power) := by
  induction l with
  | nil => simp [insertPeakDesc]
  | cons q qs ih =>
    rcases List.pairwise_cons.mp h with ⟨hq, hqs⟩
    simp only [insertPeakDesc]
    split
    · rename_i hlt
      refine List.pairwise_cons.mpr ⟨?_, h⟩
      intro b hb
      rcases List.mem_cons.mp hb with rfl | hb
      · exact hlt.le
      · exact (hq b hb).trans hlt.le
    · rename_i hge
      refine List.pairwise_cons.mpr ⟨?_, ih hqs⟩
      intro b hb
      rcases List.mem_cons.mp ((insertPeakDesc_perm p qs).mem_iff.mp hb) with rfl | hb'
      · exact not_lt.mp hge
      · exact hq b hb'

theorem foldl_insert_pairwise (l : List Peak) :
    ∀ acc : List Peak, acc.Pairwise (fun a b => b.power ≤ a.power) →
      (l.foldl (fun a p => insertPeakDesc p a) acc).Pairwise
        (fun a b => b.power ≤ a.power) := by
  induction l with
  | nil => exact fun acc h => h
  | cons p ps ih => exact fun acc h => ih _ (insertPeakDesc_pairwise h)

theorem sortPeaksDesc_pairwise (l : List Peak) :
    (sortPeaksDesc l).Pairwise (fun a b => b.power ≤ a.power) :=
  foldl_insert_pairwise l [] List.Pairwise.nil

/-- C3: a sample is a candidate peak iff it is strictly interior, strictly
above both neighbours and above 0.2 of the spectrum maximum (`listMax` is
shown to be a genuine maximum); the collected peaks are a permutation of
the candidates sorted descending by power; and when no candidate exists,
the estimator returns the frequency of the global maximum of the power
spectrum, `argmaxIdx` being an index of maximal power. -/
theorem peak_detection_spec (F : List (ℚ × ℚ)) (fs minFreq maxFreq : ℚ)
    (hne : powerSpectrumOf F fs minFreq maxFreq ≠ []) :
    (∀ p : Peak,
      p ∈ findPeaks (powerSpectrumOf F fs minFreq maxFreq)
          (minIdxOf F fs minFreq) (freqResolution F fs) ↔
        ∃ i : ℕ, 1 ≤ i ∧
          i + 1 < (powerSpectrumOf F fs minFreq maxFreq).length ∧
          psGet (powerSpectrumOf F fs minFreq maxFreq) (i - 1) <
            psGet (powerSpectrumOf F fs minFreq maxFreq) i ∧
          psGet (powerSpectrumOf F fs minFreq maxFreq) (i + 1) <
            psGet (powerSpectrumOf F fs minFreq maxFreq) i ∧
          1 / 5 * listMax (powerSpectrumOf F fs minFreq maxFreq) <
            psGet (powerSpectrumOf F fs minFreq maxFreq) i ∧
          p = ⟨(i : ℤ) + minIdxOf F fs minFreq,
            ((minIdxOf F fs minFreq : ℚ) + (i : ℚ)) * freqResolution F fs,
            psGet (powerSpectrumOf F fs minFreq maxFreq) i⟩) ∧
    (listMax (powerSpectrumOf F fs minFreq maxFreq) ∈
        powerSpectrumOf F fs minFreq maxFreq ∧
      ∀ x ∈ powerSpectrumOf F fs minFreq maxFreq,
        x ≤ listMax (powerSpectrumOf F fs minFreq maxFreq)) ∧
    ((spectrumPeaks F fs minFreq maxFreq).Perm
        (findPeaks (powerSpectrumOf F fs minFreq maxFreq)
          (minIdxOf F fs minFreq) (freqResolution F fs)) ∧
      (spectrumPeaks F fs minFreq maxFreq).Pairwise
        (fun a b => b.power ≤ a.power)) ∧
    (findPeaks (powerSpectrumOf F fs minFreq maxFreq)
        (minIdxOf F fs minFreq) (freqResolution F fs) = [] →
      find_dominant_frequency F fs minFreq maxFreq =
        (((argmaxIdx (powerSpectrumOf F fs minFreq maxFreq) : ℤ) +
          minIdxOf F fs minFreq : ℤ) : ℚ) * freqResolution F fs ∧
      argmaxIdx (powerSpectrumOf F fs minFreq maxFreq) <
        (powerSpectrumOf F fs minFreq maxFreq).length ∧
      psGet (powerSpectrumOf F fs minFreq maxFreq)
        (argmaxIdx (powerSpectrumOf F fs minFreq maxFreq)) =
        listMax (powerSpectrumOf F fs minFreq maxFreq)) := by
  refine ⟨fun p => mem_findPeaks_iff _ _ _ p,
    ⟨listMax_mem hne, fun x hx => le_listMax hx⟩,
    ⟨sortPeaksDesc_perm _, sortPeaksDesc_pairwise _⟩, ?_⟩
  intro hp
  have hsp : spectrumPeaks F fs minFreq maxFreq = [] := by
    unfold spectrumPeaks
    rw [hp]
    rfl
  exact ⟨fdf_no_peaks F fs minFreq maxFreq hne hsp,
    argmaxIdx_lt_length hne, psGet_argmaxIdx hne⟩

/-- Witness for C3 at `fftOnes` (fs = 8 Hz, band (1/2, 7/2), spectrum
[1, 1]). -/
theorem peak_detection_spec_witness :
    powerSpectrumOf fftOnes 8 (1 / 2) (7 / 2) ≠ [] ∧
    ((∀ p : Peak,
      p ∈ findPeaks (powerSpectrumOf fftOnes 8 (1 / 2) (7 / 2))
          (minIdxOf fftOnes 8 (1 / 2)) (freqResolution fftOnes 8) ↔
        ∃ i : ℕ, 1 ≤ i ∧
          i + 1 < (powerSpectrumOf fftOnes 8 (1 / 2) (7 / 2)).length ∧
          psGet (powerSpectrumOf fftOnes 8 (1 / 2) (7 / 2)) (i - 1) <
            psGet (powerSpectrumOf fftOnes 8 (1 / 2) (7 / 2)) i ∧
          psGet (powerSpectrumOf fftOnes 8 (1 / 2) (7 / 2)) (i + 1) <
            psGet (powerSpectrumOf fftOnes 8 (1 / 2) (7 / 2)) i ∧
          1 / 5 * listMax (powerSpectrumOf fftOnes 8 (1 / 2) (7 / 2)) <
            psGet (powerSpectrumOf fftOnes 8 (1 / 2) (7 / 2)) i ∧
          p = ⟨(i : ℤ) + minIdxOf fftOnes 8 (1 / 2),
            ((minIdxOf fftOnes 8 (1 / 2) : ℚ) + (i : ℚ)) * freqResolution fftOnes 8,
            psGet (powerSpectrumOf fftOnes 8 (1 / 2) (7 / 2)) i⟩) ∧
    (listMax (powerSpectrumOf fftOnes 8 (1 / 2) (7 / 2)) ∈
        powerSpectrumOf fftOnes 8 (1 / 2) (7 / 2) ∧
      ∀ x ∈ powerSpectrumOf fftOnes 8 (1 / 2) (7 / 2),
        x ≤ listMax (powerSpectrumOf fftOnes 8 (1 / 2) (7 / 2))) ∧
    ((spectrumPeaks fftOnes 8 (1 / 2) (7 / 2)).Perm
        (findPeaks (powerSpectrumOf fftOnes 8 (1 / 2) (7 / 2))
          (minIdxOf fftOnes 8 (1 / 2)) (freqResolution fftOnes 8)) ∧
      (spectrumPeaks fftOnes 8 (1 / 2) (7 / 2)).Pairwise
        (fun a b => b.power ≤ a.power)) ∧
    (findPeaks (powerSpectrumOf fftOnes 8 (1 / 2) (7 / 2))
        (minIdxOf fftOnes 8 (1 / 2)) (freqResolution fftOnes 8) = [] →
      find_dominant_frequency fftOnes 8 (1 / 2) (7 / 2) =
        (((argmaxIdx (powerSpectrumOf fftOnes 8 (1 / 2) (7 / 2)) : ℤ) +
          minIdxOf fftOnes 8 (1 / 2) : ℤ) : ℚ) * freqResolution fftOnes 8 ∧
      argmaxIdx (powerSpectrumOf fftOnes 8 (1 / 2) (7 / 2)) <
        (powerSpectrumOf fftOnes 8 (1 / 2) (7 / 2)).length ∧
      psGet (powerSpectrumOf fftOnes 8 (1 / 2) (7 / 2))
        (argmaxIdx (powerSpectrumOf fftOnes 8 (1 / 2) (7 / 2))) =
        listMax (powerSpectrumOf fftOnes 8 (1 / 2) (7 / 2)))) := by
  have h1 : powerSpectrumOf fftOnes 8 (1 / 2) (7 / 2) ≠ [] := by
    have hps : powerSpectrumOf fftOnes 8 (1 / 2) (7 / 2) = [1, 1] := by
      norm_num [fftOnes, powerSpectrumOf, minIdxOf, maxIdxOf, freqResolution,
        pyTrunc, pySlice, pySliceBound, sqMag, max_def, min_def,
        List.replicate, Int.toNat, List.take, List.drop]
    rw [hps]
    exact List.cons_ne_nil _ _
  exact ⟨h1, peak_detection_spec fftOnes 8 (1 / 2) (7 / 2) h1⟩

end ProcessData
